import Mathlib

/-!
Verification of the PseudoCompiler middle end and back end.

This file gives a shallow embedding, in Lean, of the IR generator
(`src/src/ir.cpp` together with `src/include/ir.hpp` and
`src/include/ast.hpp`) and of the assembly backend
(`src/src/codegen.cpp`), and proves properties of these embeddings.

Modelling conventions:
* C++ `std::string` is `String`; tokens are replaced by their `value`
  field, which is the only part the middle end reads.
* `std::shared_ptr<ASTNode>` children that the code explicitly
  tolerates being null (every statement position: sequence children,
  if/while bodies, else bodies, the root, and `PrintStatement.intExpr`)
  are `Option ASTNode`; expression children that the code dereferences
  unconditionally are plain `ASTNode`.
* `std::unordered_map<std::string, std::string>` is modelled as an
  association list with overwrite-on-insert; no claim depends on the
  (unspecified) iteration order of the C++ container.
* `throw std::runtime_error` and the undefined behaviour of
  `std::get_if` on a non-`Condition` node are modelled as `Except.error`.
* The backend's output buffer is modelled as the list of the strings
  passed to `CodeGenerator::pr`, each of which the C++ code follows
  with one newline; joining the list with newlines reproduces the
  byte buffer exactly.
-/

set_option maxRecDepth 8000

namespace PseudoCompiler

/-! ### AST model (src/include/ast.hpp) -/

/-- The closed sum of AST node kinds, mirroring `pseu::ast::ASTNode`. -/
inductive ASTNode where
  | number (value : String)
  | stringLiteral (value : String)
  | identifier (value : String)
  | binOp (left : ASTNode) (op : String) (right : ASTNode)
  | statement (left : Option ASTNode) (right : Option ASTNode)
  | condition (leftExpression : ASTNode) (comparison : String) (rightExpression : ASTNode)
  | ifStatement (ifCondition : ASTNode) (ifBody : Option ASTNode) (elseBody : Option ASTNode)
  | whileStatement (cond : ASTNode) (body : Option ASTNode)
  | printStatement (type : String) (intExpr : Option ASTNode) (strValue : String)
  | assignment (ident : String) (expression : ASTNode)
  | declaration (declarationType : String) (identifiers : List String) (initExpr : Option ASTNode)

/-! ### IR model (src/include/ir.hpp) -/

/-- The closed sum of IR instruction kinds, mirroring `pseu::ir::IRInstr`. -/
inductive IRInstr where
  | assignmentCode (var left op right : String)
  | jumpCode (dist : String)
  | labelCode (label : String)
  | compareCodeIR (left operation right jump : String)
  | printCodeIR (type value : String)
deriving DecidableEq, Repr

/-- Association-list model of `std::unordered_map<std::string, std::string>`:
key lookup. -/
def lookupMap : List (String × String) → String → Option String
  | [], _ => none
  | kv :: rest, k => if kv.1 = k then some kv.2 else lookupMap rest k

/-- Association-list model of `map.count(k) != 0`. -/
def containsKey (m : List (String × String)) (k : String) : Bool :=
  (lookupMap m k).isSome

/-- Association-list model of `map[k] = v` (overwrite or append). -/
def insertMap : List (String × String) → String → String → List (String × String)
  | [], k, v => [(k, v)]
  | kv :: rest, k, v => if kv.1 = k then (k, v) :: rest else kv :: insertMap rest k v

/-- The private state of `pseu::ir::IntermediateCodeGen`: the instruction
array, the two symbol tables, and the three fresh-name counters. -/
structure GenState where
  arr : List IRInstr
  identifiers : List (String × String)
  constants : List (String × String)
  tCounter : Nat
  lCounter : Nat
  sCounter : Nat
deriving DecidableEq, Repr

/-- `InterCodeArray::append` (push_back at the end of the stream). -/
def appendInstr (s : GenState) (i : IRInstr) : GenState :=
  { s with arr := s.arr ++ [i] }

/-- `IntermediateCodeGen::nextTemp`: `"T" + std::to_string(tCounter++)`. -/
def nextTemp (s : GenState) : String × GenState :=
  ("T" ++ Nat.repr s.tCounter, { s with tCounter := s.tCounter + 1 })

/-- `IntermediateCodeGen::nextLabel`: `"L" + std::to_string(lCounter++)`. -/
def nextLabel (s : GenState) : String × GenState :=
  ("L" ++ Nat.repr s.lCounter, { s with lCounter := s.lCounter + 1 })

/-- `IntermediateCodeGen::nextStringSym`: `"S" + std::to_string(sCounter++)`. -/
def nextStringSym (s : GenState) : String × GenState :=
  ("S" ++ Nat.repr s.sCounter, { s with sCounter := s.sCounter + 1 })

/-- The label string allocated at counter value `n`. -/
def lbl (n : Nat) : String := "L" ++ Nat.repr n

/-- `IntermediateCodeGen::exec_expr` and its `exec_expr_node` overloads.
Identifiers and numbers return their token text; string literals allocate
a fresh `S<n>` constant; binary operations lower both children, allocate a
fresh temporary registered as `"int"`, and emit a three-address assignment.
Every other node kind hits the catch-all template, which returns the empty
string and emits nothing. -/
def exec_expr : ASTNode → GenState → String × GenState
  | .identifier v, s => (v, s)
  | .number v, s => (v, s)
  | .stringLiteral v, s =>
      let p := nextStringSym s
      (p.1, { p.2 with constants := insertMap p.2.constants p.1 v })
  | .binOp l op r, s =>
      let pl := exec_expr l s
      let pr := exec_expr r pl.2
      let pt := nextTemp pr.2
      let s4 := { pt.2 with identifiers := insertMap pt.2.identifiers pt.1 "int" }
      (pt.1, appendInstr s4 (.assignmentCode pt.1 pl.1 op pr.1))
  | _, s => ("", s)

/-- `IntermediateCodeGen::exec_condition`: lower both operand expressions,
allocate the "true" label, emit the `Compare`, and return the true label. -/
def exec_condition (cl : ASTNode) (cop : String) (cr : ASTNode) (s : GenState) :
    String × GenState :=
  let pl := exec_expr cl s
  let pr := exec_expr cr pl.2
  let pt := nextLabel pr.2
  (pt.1, appendInstr pt.2 (.compareCodeIR pl.1 cop pr.1 pt.1))

/-- `IntermediateCodeGen::exec_assignment`: a target identifier absent from
the identifier table is registered as `"string"`; then the right-hand side
is lowered and a copy assignment is appended. -/
def exec_assignment (ident : String) (expression : ASTNode) (s : GenState) : GenState :=
  let s0 := if containsKey s.identifiers ident then s
            else { s with identifiers := insertMap s.identifiers ident "string" }
  let p := exec_expr expression s0
  appendInstr p.2 (.assignmentCode ident p.1 "" "")

/-- `IntermediateCodeGen::exec_print`. -/
def exec_print (ty : String) (intExpr : Option ASTNode) (strValue : String)
    (s : GenState) : Except String GenState :=
  if ty = "string" then
    if strValue ≠ "" then
      let p := nextStringSym s
      let s1 := { p.2 with constants := insertMap p.2.constants p.1 strValue }
      .ok (appendInstr s1 (.printCodeIR "string" p.1))
    else
      match intExpr with
      | none => .error "null expression dereferenced"
      | some e =>
          let p := exec_expr e s
          .ok (appendInstr p.2 (.printCodeIR "string" p.1))
  else
    match intExpr with
    | none => .error "null expression dereferenced"
    | some e =>
        let p := exec_expr e s
        .ok (appendInstr p.2 (.printCodeIR "int" p.1))

/-- `IntermediateCodeGen::exec_declaration`: register every identifier of
the list with the declared type, then handle the optional initializer,
which is only legal for single-identifier declarations. -/
def exec_declaration (declarationType : String) (ids : List String)
    (initExpr : Option ASTNode) (s : GenState) : Except String GenState :=
  let s0 := { s with
    identifiers := ids.foldl (fun m i => insertMap m i declarationType) s.identifiers }
  match initExpr with
  | none => .ok s0
  | some e =>
      if ids.length ≠ 1 then
        .error "Init only allowed for single variable declaration"
      else
        let p := exec_expr e s0
        .ok (appendInstr p.2 (.assignmentCode (ids.headD "") p.1 "" ""))

/-- `IntermediateCodeGen::exec_statement` together with its
`exec_statement_node` overloads.  A null pointer is skipped; sequence
nodes lower both children in order; `if` and `while` extract their
`Condition` with `std::get_if` (undefined on any other node kind,
modelled as an error); expression node kinds in statement position hit
the no-op template. -/
def exec_statement : Option ASTNode → GenState → Except String GenState
  | none, s => .ok s
  | some (.statement l r), s =>
      match exec_statement l s with
      | .error e => .error e
      | .ok s1 => exec_statement r s1
  | some (.ifStatement c b eb), s =>
      match c with
      | .condition cl cop cr =>
          let pc := exec_condition cl cop cr s
          let pe := nextLabel pc.2
          let px := nextLabel pe.2
          let s4 := appendInstr px.2 (.jumpCode pe.1)
          let s5 := appendInstr s4 (.labelCode pc.1)
          match exec_statement b s5 with
          | .error e => .error e
          | .ok s6 =>
              let s7 := appendInstr s6 (.jumpCode px.1)
              let s8 := appendInstr s7 (.labelCode pe.1)
              match exec_statement eb s8 with
              | .error e => .error e
              | .ok s9 => .ok (appendInstr s9 (.labelCode px.1))
      | _ => .error "get_if on a node that is not a Condition"
  | some (.whileStatement c b), s =>
      match c with
      | .condition cl cop cr =>
          let ps := nextLabel s
          let pb := nextLabel ps.2
          let px := nextLabel pb.2
          let s4 := appendInstr px.2 (.labelCode ps.1)
          let pt := exec_condition cl cop cr s4
          let s5 := appendInstr pt.2 (.jumpCode px.1)
          let s6 := appendInstr s5 (.labelCode pt.1)
          match exec_statement b s6 with
          | .error e => .error e
          | .ok s7 =>
              let s8 := appendInstr s7 (.jumpCode ps.1)
              .ok (appendInstr s8 (.labelCode px.1))
      | _ => .error "get_if on a node that is not a Condition"
  | some (.printStatement ty ie sv), s => exec_print ty ie sv s
  | some (.declaration dt ids init), s => exec_declaration dt ids init s
  | some (.assignment ident e), s => .ok (exec_assignment ident e s)
  | some (.number _), s => .ok s
  | some (.stringLiteral _), s => .ok s
  | some (.identifier _), s => .ok s
  | some (.binOp ..), s => .ok s
  | some (.condition ..), s => .ok s

/-- The generator state at construction: counters at 1, everything empty. -/
def initState : GenState :=
  { arr := [], identifiers := [], constants := [], tCounter := 1, lCounter := 1, sCounter := 1 }

/-- The `IntermediateCodeGen` constructor: run `exec_statement` on the root
starting from the fresh state. -/
def runGen (root : Option ASTNode) : Except String GenState :=
  exec_statement root initState

/-- `pseu::ir::GeneratedIR`: the bundle returned by
`IntermediateCodeGen::get`. -/
structure GeneratedIR where
  code : List IRInstr
  identifiers : List (String × String)
  constants : List (String × String)
deriving DecidableEq, Repr

/-- `IntermediateCodeGen::get`. -/
def get (s : GenState) : GeneratedIR :=
  { code := s.arr, identifiers := s.identifiers, constants := s.constants }

/-! ### Injectivity of the decimal rendering used by the fresh-name counters -/

/-- Decimal value of a digit-character list, used to invert `Nat.toDigits`. -/
def digitsVal (l : List Char) : Nat :=
  l.foldl (fun a c => 10 * a + (c.toNat - 48)) 0

theorem toDigitsCore_eq_append (fuel : Nat) : ∀ (n : Nat) (ds : List Char),
    Nat.toDigitsCore 10 fuel n ds = Nat.toDigitsCore 10 fuel n [] ++ ds := by
  induction fuel with
  | zero => intro n ds; simp [Nat.toDigitsCore]
  | succ fuel ih =>
    intro n ds
    simp only [Nat.toDigitsCore]
    by_cases h : n / 10 = 0
    · simp [h]
    · rw [if_neg h, if_neg h, ih (n / 10) (Nat.digitChar (n % 10) :: ds),
        ih (n / 10) [Nat.digitChar (n % 10)], List.append_assoc]
      rfl

theorem digitChar_sub48 (m : Nat) (h : m < 10) : (Nat.digitChar m).toNat - 48 = m := by
  interval_cases m <;> rfl

theorem digitsVal_concat (l : List Char) (c : Char) :
    digitsVal (l ++ [c]) = 10 * digitsVal l + (c.toNat - 48) := by
  simp [digitsVal, List.foldl_append]

theorem toDigitsCore_val (fuel : Nat) : ∀ n : Nat, n < fuel →
    digitsVal (Nat.toDigitsCore 10 fuel n []) = n := by
  induction fuel with
  | zero => intro n hn; omega
  | succ fuel ih =>
    intro n hn
    simp only [Nat.toDigitsCore]
    by_cases h : n / 10 = 0
    · have h10 : n < 10 := (Nat.div_eq_zero_iff (by norm_num)).mp h
      rw [if_pos h]
      show digitsVal ([] ++ [Nat.digitChar (n % 10)]) = n
      rw [digitsVal_concat, digitChar_sub48 _ (Nat.mod_lt n (by norm_num) |>.trans_le (by omega))]
      · simp [digitsVal, Nat.mod_eq_of_lt h10]
    · have hpos : 0 < n := by
        rcases Nat.eq_zero_or_pos n with h0 | h0
        · exact absurd (by simp [h0]) h
        · exact h0
      have hlt : n / 10 < fuel :=
        lt_of_lt_of_le (Nat.div_lt_self hpos (by norm_num)) (Nat.lt_succ_iff.mp hn)
      rw [if_neg h, toDigitsCore_eq_append, digitsVal_concat,
        digitChar_sub48 _ (Nat.mod_lt n (by norm_num)), ih (n / 10) hlt]
      omega

theorem repr_injective {m n : Nat} (h : Nat.repr m = Nat.repr n) : m = n := by
  have hd : Nat.toDigits 10 m = Nat.toDigits 10 n := by
    have := congrArg String.data h
    simpa [Nat.repr, List.asString] using this
  have hm := toDigitsCore_val (m + 1) m (Nat.lt_succ_self m)
  have hn := toDigitsCore_val (n + 1) n (Nat.lt_succ_self n)
  rw [show Nat.toDigitsCore 10 (m + 1) m [] = Nat.toDigits 10 m from rfl, hd] at hm
  rw [show Nat.toDigitsCore 10 (n + 1) n [] = Nat.toDigits 10 n from rfl] at hn
  omega

theorem lbl_injective {m n : Nat} (h : lbl m = lbl n) : m = n := by
  apply repr_injective
  have hd := congrArg String.data h
  simp only [lbl] at hd
  have : ("L" ++ Nat.repr m).data = ("L" ++ Nat.repr n).data := hd
  have h2 : Char.ofNat 76 :: (Nat.repr m).data = Char.ofNat 76 :: (Nat.repr n).data := this
  have h3 : (Nat.repr m).data = (Nat.repr n).data := by
    injection h2
  cases hm : Nat.repr m with
  | mk dm =>
    cases hn : Nat.repr n with
    | mk dn =>
      rw [hm, hn] at h3
      simp at h3
      rw [h3]

theorem lbl_inj_iff {m n : Nat} : lbl m = lbl n ↔ m = n :=
  ⟨lbl_injective, fun h => h ▸ rfl⟩

/-! ### Labels and jump/compare targets of an IR stream -/

/-- The names of the `Label` instructions of a stream, in order. -/
def labelsOf (c : List IRInstr) : List String :=
  c.filterMap (fun i => match i with | .labelCode l => some l | _ => none)

/-- The targets of the `Jump` and `Compare` instructions of a stream. -/
def targetsOf (c : List IRInstr) : List String :=
  c.filterMap (fun i => match i with
    | .jumpCode d => some d
    | .compareCodeIR _ _ _ j => some j
    | _ => none)

@[simp] theorem labelsOf_nil : labelsOf [] = [] := rfl

@[simp] theorem targetsOf_nil : targetsOf [] = [] := rfl

@[simp] theorem labelsOf_append (a b : List IRInstr) :
    labelsOf (a ++ b) = labelsOf a ++ labelsOf b := by
  simp [labelsOf]

@[simp] theorem targetsOf_append (a b : List IRInstr) :
    targetsOf (a ++ b) = targetsOf a ++ targetsOf b := by
  simp [targetsOf]

@[simp] theorem labelsOf_cons_label (l : String) (c : List IRInstr) :
    labelsOf (.labelCode l :: c) = l :: labelsOf c := rfl

@[simp] theorem labelsOf_cons_jump (d : String) (c : List IRInstr) :
    labelsOf (.jumpCode d :: c) = labelsOf c := rfl

@[simp] theorem labelsOf_cons_compare (a o b j : String) (c : List IRInstr) :
    labelsOf (.compareCodeIR a o b j :: c) = labelsOf c := rfl

@[simp] theorem labelsOf_cons_assign (v a o b : String) (c : List IRInstr) :
    labelsOf (.assignmentCode v a o b :: c) = labelsOf c := rfl

@[simp] theorem labelsOf_cons_print (t v : String) (c : List IRInstr) :
    labelsOf (.printCodeIR t v :: c) = labelsOf c := rfl

@[simp] theorem targetsOf_cons_label (l : String) (c : List IRInstr) :
    targetsOf (.labelCode l :: c) = targetsOf c := rfl

@[simp] theorem targetsOf_cons_jump (d : String) (c : List IRInstr) :
    targetsOf (.jumpCode d :: c) = d :: targetsOf c := rfl

@[simp] theorem targetsOf_cons_compare (a o b j : String) (c : List IRInstr) :
    targetsOf (.compareCodeIR a o b j :: c) = j :: targetsOf c := rfl

@[simp] theorem targetsOf_cons_assign (v a o b : String) (c : List IRInstr) :
    targetsOf (.assignmentCode v a o b :: c) = targetsOf c := rfl

@[simp] theorem targetsOf_cons_print (t v : String) (c : List IRInstr) :
    targetsOf (.printCodeIR t v :: c) = targetsOf c := rfl

/-- An instruction that defines no label and no jump target
(assignments and prints). -/
def emitsNoCf : IRInstr → Bool
  | .assignmentCode .. => true
  | .printCodeIR .. => true
  | _ => false

theorem labelsOf_eq_nil_of_noCf {c : List IRInstr} (h : ∀ i ∈ c, emitsNoCf i = true) :
    labelsOf c = [] := by
  induction c with
  | nil => rfl
  | cons i rest ih =>
    have hi := h i (by simp)
    have hr := ih (fun j hj => h j (by simp [hj]))
    cases i <;> simp_all [labelsOf, emitsNoCf]

theorem targetsOf_eq_nil_of_noCf {c : List IRInstr} (h : ∀ i ∈ c, emitsNoCf i = true) :
    targetsOf c = [] := by
  induction c with
  | nil => rfl
  | cons i rest ih =>
    have hi := h i (by simp)
    have hr := ih (fun j hj => h j (by simp [hj]))
    cases i <;> simp_all [targetsOf, emitsNoCf]

/-- `InRange lo hi t`: `t` is a label string allocated from a counter value
in the interval `[lo, hi)`. -/
def InRange (lo hi : Nat) (t : String) : Prop :=
  ∃ n, t = lbl n ∧ lo ≤ n ∧ n < hi

theorem InRange.widen {lo hi lo' hi' : Nat} {t : String}
    (h : InRange lo hi t) (h1 : lo' ≤ lo) (h2 : hi ≤ hi') : InRange lo' hi' t := by
  obtain ⟨n, rfl, hn1, hn2⟩ := h
  exact ⟨n, rfl, by omega, by omega⟩

theorem InRange.ne_of_sep {lo1 hi1 lo2 hi2 : Nat} {t1 t2 : String}
    (h1 : InRange lo1 hi1 t1) (h2 : InRange lo2 hi2 t2) (sep : hi1 ≤ lo2) : t1 ≠ t2 := by
  obtain ⟨n, rfl, hn1, hn2⟩ := h1
  obtain ⟨m, rfl, hm1, hm2⟩ := h2
  intro h
  have := lbl_injective h
  omega

theorem InRange.lbl_mem {lo hi n : Nat} (h : InRange lo hi (lbl n)) :
    lo ≤ n ∧ n < hi := by
  obtain ⟨m, hm, h1, h2⟩ := h
  have := lbl_injective hm
  omega

/-- Invariant for the instruction segment a sub-tree appends while the
label counter advances from `lo` to `hi`: all labels and targets are label
strings from `[lo, hi)`, labels are pairwise distinct, and every target is
defined by a label of the same segment. -/
structure GoodSeg (c : List IRInstr) (lo hi : Nat) : Prop where
  labels_range : ∀ t ∈ labelsOf c, InRange lo hi t
  labels_nodup : (labelsOf c).Nodup
  targets_range : ∀ t ∈ targetsOf c, InRange lo hi t
  targets_defined : ∀ t ∈ targetsOf c, t ∈ labelsOf c

theorem GoodSeg.nil (lo hi : Nat) : GoodSeg [] lo hi := by
  constructor <;> simp

theorem GoodSeg.widenRange {c lo hi lo' hi'} (h : GoodSeg c lo hi)
    (h1 : lo' ≤ lo) (h2 : hi ≤ hi') : GoodSeg c lo' hi' := by
  refine ⟨fun t ht => (h.labels_range t ht).widen h1 h2, h.labels_nodup,
    fun t ht => (h.targets_range t ht).widen h1 h2, h.targets_defined⟩

theorem GoodSeg.of_noCf {c : List IRInstr} (h : ∀ i ∈ c, emitsNoCf i = true)
    (lo hi : Nat) : GoodSeg c lo hi := by
  constructor <;> simp [labelsOf_eq_nil_of_noCf h, targetsOf_eq_nil_of_noCf h]

theorem GoodSeg.append {c1 c2 lo mid hi} (h1 : GoodSeg c1 lo mid)
    (h2 : GoodSeg c2 mid hi) (hlm : lo ≤ mid) (hmh : mid ≤ hi) :
    GoodSeg (c1 ++ c2) lo hi := by
  have disj : ∀ t, t ∈ labelsOf c1 → t ∈ labelsOf c2 → False := fun t ht1 ht2 =>
    (h1.labels_range t ht1).ne_of_sep (h2.labels_range t ht2) le_rfl rfl
  refine ⟨?_, ?_, ?_, ?_⟩
  · intro t ht
    rw [labelsOf_append, List.mem_append] at ht
    rcases ht with ht | ht
    · exact (h1.labels_range t ht).widen le_rfl hmh
    · exact (h2.labels_range t ht).widen hlm le_rfl
  · rw [labelsOf_append, List.nodup_append]
    exact ⟨h1.labels_nodup, h2.labels_nodup, fun t ht1 ht2 => disj t ht1 ht2⟩
  · intro t ht
    rw [targetsOf_append, List.mem_append] at ht
    rcases ht with ht | ht
    · exact (h1.targets_range t ht).widen le_rfl hmh
    · exact (h2.targets_range t ht).widen hlm le_rfl
  · intro t ht
    rw [targetsOf_append, List.mem_append] at ht
    rw [labelsOf_append, List.mem_append]
    rcases ht with ht | ht
    · exact Or.inl (h1.targets_defined t ht)
    · exact Or.inr (h2.targets_defined t ht)

/-! ### What expression lowering appends to the stream -/

theorem exec_expr_facts (e : ASTNode) (s : GenState) :
    ∃ Δ, (exec_expr e s).2.arr = s.arr ++ Δ ∧ (∀ i ∈ Δ, emitsNoCf i = true) ∧
      (exec_expr e s).2.lCounter = s.lCounter := by
  induction e, s using exec_expr.induct
  case case4 =>
    rename_i l op r s pl ihl ihr
    have hpl : pl = exec_expr l s := rfl
    obtain ⟨d1, h1, hn1, hc1⟩ := ihl
    obtain ⟨d2, h2, hn2, hc2⟩ := ihr
    rw [hpl] at h2 hc2
    refine ⟨d1 ++ d2 ++
      [.assignmentCode ("T" ++ Nat.repr (exec_expr r (exec_expr l s).2).2.tCounter)
        (exec_expr l s).1 op (exec_expr r (exec_expr l s).2).1], ?_, ?_, ?_⟩
    · simp [exec_expr, appendInstr, nextTemp, h2, h1]
    · intro i hi
      simp only [List.mem_append, List.mem_singleton] at hi
      rcases hi with (hi | hi) | hi
      · exact hn1 i hi
      · exact hn2 i hi
      · subst hi; rfl
    · simp [exec_expr, appendInstr, nextTemp, hc2, hc1]
  case case1 => exact ⟨[], by simp [exec_expr], by simp, by simp [exec_expr]⟩
  case case2 => exact ⟨[], by simp [exec_expr], by simp, by simp [exec_expr]⟩
  case case3 => exact ⟨[], by simp [exec_expr, nextStringSym], by simp,
      by simp [exec_expr, nextStringSym]⟩
  case case5 => exact ⟨[], by simp [exec_expr], by simp, by simp [exec_expr]⟩

theorem exec_condition_facts (cl : ASTNode) (cop : String) (cr : ASTNode) (s : GenState) :
    ∃ Δ lv rv,
      (exec_condition cl cop cr s).2.arr
        = s.arr ++ Δ ++ [.compareCodeIR lv cop rv (lbl s.lCounter)] ∧
      (∀ i ∈ Δ, emitsNoCf i = true) ∧
      (exec_condition cl cop cr s).1 = lbl s.lCounter ∧
      (exec_condition cl cop cr s).2.lCounter = s.lCounter + 1 := by
  obtain ⟨d1, h1, hn1, hc1⟩ := exec_expr_facts cl s
  obtain ⟨d2, h2, hn2, hc2⟩ := exec_expr_facts cr (exec_expr cl s).2
  have hl : (exec_expr cr (exec_expr cl s).2).2.lCounter = s.lCounter := by rw [hc2, hc1]
  refine ⟨d1 ++ d2, (exec_expr cl s).1, (exec_expr cr (exec_expr cl s).2).1, ?_, ?_, ?_, ?_⟩
  · simp [exec_condition, appendInstr, nextLabel, h1, h2, hl, lbl]
  · intro i hi
    rcases List.mem_append.mp hi with hi | hi
    · exact hn1 i hi
    · exact hn2 i hi
  · simp [exec_condition, nextLabel, hl, lbl]
  · simp [exec_condition, appendInstr, nextLabel, hl]

theorem lbl_notmem_of_range {L : List String} {lo hi n : Nat}
    (hR : ∀ t ∈ L, InRange lo hi t) (h : n < lo ∨ hi ≤ n) : lbl n ∉ L := by
  intro hm
  have := (hR _ hm).lbl_mem
  omega

theorem mem_labels_bound {L : List String} {lo hi n : Nat}
    (hR : ∀ t ∈ L, InRange lo hi t) (hm : lbl n ∈ L) : lo ≤ n ∧ n < hi :=
  (hR _ hm).lbl_mem

/-- The control-flow shape appended by `exec_if`, entered with label
counter `l`, with then-branch segment `dt` and else-branch segment `de`. -/
theorem GoodSeg.ifShape (dc dt de : List IRInstr) (lv cop rv : String) (l m k : Nat)
    (hc : ∀ i ∈ dc, emitsNoCf i = true)
    (ht : GoodSeg dt (l + 3) m) (he : GoodSeg de m k)
    (h3 : l + 3 ≤ m) (hmk : m ≤ k) :
    GoodSeg (dc ++ [.compareCodeIR lv cop rv (lbl l)] ++ [.jumpCode (lbl (l + 1))]
      ++ [.labelCode (lbl l)] ++ dt ++ [.jumpCode (lbl (l + 2))]
      ++ [.labelCode (lbl (l + 1))] ++ de ++ [.labelCode (lbl (l + 2))]) l k := by
  have hLc := labelsOf_eq_nil_of_noCf hc
  have hTc := targetsOf_eq_nil_of_noCf hc
  have eL : labelsOf (dc ++ [IRInstr.compareCodeIR lv cop rv (lbl l)]
      ++ [IRInstr.jumpCode (lbl (l + 1))] ++ [IRInstr.labelCode (lbl l)] ++ dt
      ++ [IRInstr.jumpCode (lbl (l + 2))] ++ [IRInstr.labelCode (lbl (l + 1))] ++ de
      ++ [IRInstr.labelCode (lbl (l + 2))])
      = lbl l :: (labelsOf dt ++ lbl (l + 1) :: (labelsOf de ++ [lbl (l + 2)])) := by
    simp [hLc]
  have eT : targetsOf (dc ++ [IRInstr.compareCodeIR lv cop rv (lbl l)]
      ++ [IRInstr.jumpCode (lbl (l + 1))] ++ [IRInstr.labelCode (lbl l)] ++ dt
      ++ [IRInstr.jumpCode (lbl (l + 2))] ++ [IRInstr.labelCode (lbl (l + 1))] ++ de
      ++ [IRInstr.labelCode (lbl (l + 2))])
      = lbl l :: lbl (l + 1) :: (targetsOf dt ++ lbl (l + 2) :: targetsOf de) := by
    simp [hTc]
  refine ⟨?_, ?_, ?_, ?_⟩
  · rw [eL]
    intro t htm
    simp only [List.mem_cons, List.mem_append, List.mem_singleton, List.not_mem_nil, or_false] at htm
    rcases htm with rfl | htm | rfl | htm | rfl
    · exact ⟨l, rfl, by omega, by omega⟩
    · exact (ht.labels_range t htm).widen (by omega) (by omega)
    · exact ⟨l + 1, rfl, by omega, by omega⟩
    · exact (he.labels_range t htm).widen (by omega) (by omega)
    · exact ⟨l + 2, rfl, by omega, by omega⟩
  · rw [eL]
    refine List.nodup_cons.mpr ⟨?_, ?_⟩
    · intro hm
      simp only [List.mem_append, List.mem_cons, List.mem_singleton, List.not_mem_nil, or_false] at hm
      rcases hm with hm | hm | hm | hm
      · exact absurd (mem_labels_bound ht.labels_range hm) (by omega)
      · exact absurd (lbl_injective hm) (by omega)
      · exact absurd (mem_labels_bound he.labels_range hm) (by omega)
      · exact absurd (lbl_injective hm) (by omega)
    · refine List.nodup_append.mpr ⟨ht.labels_nodup, ?_, ?_⟩
      · refine List.nodup_cons.mpr ⟨?_, ?_⟩
        · intro hm
          simp only [List.mem_append, List.mem_cons, List.mem_singleton, List.not_mem_nil, or_false] at hm
          rcases hm with hm | hm
          · exact absurd (mem_labels_bound he.labels_range hm) (by omega)
          · exact absurd (lbl_injective hm) (by omega)
        · refine List.nodup_append.mpr ⟨he.labels_nodup, List.nodup_singleton _, ?_⟩
          intro t htm htm'
          rcases List.mem_singleton.mp htm' with rfl
          exact absurd (mem_labels_bound he.labels_range htm) (by omega)
      · intro t htm htm'
        obtain ⟨n, rfl, hn1, hn2⟩ := ht.labels_range t htm
        simp only [List.mem_cons, List.mem_append, List.mem_singleton, List.not_mem_nil, or_false] at htm'
        rcases htm' with h | h | h
        · exact absurd (lbl_injective h) (by omega)
        · exact absurd (mem_labels_bound he.labels_range h) (by omega)
        · exact absurd (lbl_injective h) (by omega)
  · rw [eT]
    intro t htm
    simp only [List.mem_cons, List.mem_append, List.mem_singleton, List.not_mem_nil, or_false] at htm
    rcases htm with rfl | rfl | htm | rfl | htm
    · exact ⟨l, rfl, by omega, by omega⟩
    · exact ⟨l + 1, rfl, by omega, by omega⟩
    · exact (ht.targets_range t htm).widen (by omega) (by omega)
    · exact ⟨l + 2, rfl, by omega, by omega⟩
    · exact (he.targets_range t htm).widen (by omega) (by omega)
  · rw [eT, eL]
    intro t htm
    simp only [List.mem_cons, List.mem_append, List.mem_singleton, List.not_mem_nil, or_false] at htm ⊢
    rcases htm with rfl | rfl | htm | rfl | htm
    · exact Or.inl rfl
    · exact Or.inr (Or.inr (Or.inl rfl))
    · exact Or.inr (Or.inl (ht.targets_defined t htm))
    · exact Or.inr (Or.inr (Or.inr (Or.inr rfl)))
    · exact Or.inr (Or.inr (Or.inr (Or.inl (he.targets_defined t htm))))

/-- The control-flow shape appended by `exec_while`, entered with label
counter `l`, with body segment `db`. -/
theorem GoodSeg.whileShape (dc db : List IRInstr) (lv cop rv : String) (l m : Nat)
    (hc : ∀ i ∈ dc, emitsNoCf i = true)
    (hb : GoodSeg db (l + 4) m) (h4 : l + 4 ≤ m) :
    GoodSeg ([.labelCode (lbl l)] ++ dc ++ [.compareCodeIR lv cop rv (lbl (l + 3))]
      ++ [.jumpCode (lbl (l + 2))] ++ [.labelCode (lbl (l + 3))] ++ db
      ++ [.jumpCode (lbl l)] ++ [.labelCode (lbl (l + 2))]) l m := by
  have hLc := labelsOf_eq_nil_of_noCf hc
  have hTc := targetsOf_eq_nil_of_noCf hc
  have eL : labelsOf ([IRInstr.labelCode (lbl l)] ++ dc
      ++ [IRInstr.compareCodeIR lv cop rv (lbl (l + 3))] ++ [IRInstr.jumpCode (lbl (l + 2))]
      ++ [IRInstr.labelCode (lbl (l + 3))] ++ db ++ [IRInstr.jumpCode (lbl l)]
      ++ [IRInstr.labelCode (lbl (l + 2))])
      = lbl l :: lbl (l + 3) :: (labelsOf db ++ [lbl (l + 2)]) := by
    simp [hLc]
  have eT : targetsOf ([IRInstr.labelCode (lbl l)] ++ dc
      ++ [IRInstr.compareCodeIR lv cop rv (lbl (l + 3))] ++ [IRInstr.jumpCode (lbl (l + 2))]
      ++ [IRInstr.labelCode (lbl (l + 3))] ++ db ++ [IRInstr.jumpCode (lbl l)]
      ++ [IRInstr.labelCode (lbl (l + 2))])
      = lbl (l + 3) :: lbl (l + 2) :: (targetsOf db ++ [lbl l]) := by
    simp [hTc]
  refine ⟨?_, ?_, ?_, ?_⟩
  · rw [eL]
    intro t htm
    simp only [List.mem_cons, List.mem_append, List.mem_singleton, List.not_mem_nil, or_false] at htm
    rcases htm with rfl | rfl | htm | rfl
    · exact ⟨l, rfl, by omega, by omega⟩
    · exact ⟨l + 3, rfl, by omega, by omega⟩
    · exact (hb.labels_range t htm).widen (by omega) (by omega)
    · exact ⟨l + 2, rfl, by omega, by omega⟩
  · rw [eL]
    refine List.nodup_cons.mpr ⟨?_, ?_⟩
    · intro hm
      simp only [List.mem_cons, List.mem_append, List.mem_singleton, List.not_mem_nil,
        or_false] at hm
      rcases hm with hm | hm | hm
      · exact absurd (lbl_injective hm) (by omega)
      · exact absurd (mem_labels_bound hb.labels_range hm) (by omega)
      · exact absurd (lbl_injective hm) (by omega)
    · refine List.nodup_cons.mpr ⟨?_, ?_⟩
      · intro hm
        simp only [List.mem_append, List.mem_cons, List.mem_singleton, List.not_mem_nil, or_false] at hm
        rcases hm with hm | hm
        · exact absurd (mem_labels_bound hb.labels_range hm) (by omega)
        · exact absurd (lbl_injective hm) (by omega)
      · refine List.nodup_append.mpr ⟨hb.labels_nodup, List.nodup_singleton _, ?_⟩
        intro t htm htm'
        rcases List.mem_singleton.mp htm' with rfl
        exact absurd (mem_labels_bound hb.labels_range htm) (by omega)
  · rw [eT]
    intro t htm
    simp only [List.mem_cons, List.mem_append, List.mem_singleton, List.not_mem_nil, or_false] at htm
    rcases htm with rfl | rfl | htm | rfl
    · exact ⟨l + 3, rfl, by omega, by omega⟩
    · exact ⟨l + 2, rfl, by omega, by omega⟩
    · exact (hb.targets_range t htm).widen (by omega) (by omega)
    · exact ⟨l, rfl, by omega, by omega⟩
  · rw [eT, eL]
    intro t htm
    simp only [List.mem_cons, List.mem_append, List.mem_singleton, List.not_mem_nil, or_false] at htm ⊢
    rcases htm with rfl | rfl | htm | rfl
    · exact Or.inr (Or.inl rfl)
    · exact Or.inr (Or.inr (Or.inr rfl))
    · exact Or.inr (Or.inr (Or.inl (hb.targets_defined t htm)))
    · exact Or.inl rfl

theorem exec_assignment_facts (ident : String) (e : ASTNode) (s : GenState) :
    ∃ Δ, (exec_assignment ident e s).arr = s.arr ++ Δ ∧ (∀ i ∈ Δ, emitsNoCf i = true) ∧
      (exec_assignment ident e s).lCounter = s.lCounter := by
  set s0 := if containsKey s.identifiers ident then s
            else { s with identifiers := insertMap s.identifiers ident "string" } with hs0
  have harr : s0.arr = s.arr := by
    rw [hs0]; split <;> rfl
  have hcnt : s0.lCounter = s.lCounter := by
    rw [hs0]; split <;> rfl
  obtain ⟨d, hd, hn, hc⟩ := exec_expr_facts e s0
  refine ⟨d ++ [.assignmentCode ident (exec_expr e s0).1 "" ""], ?_, ?_, ?_⟩
  · simp [exec_assignment, appendInstr, ← hs0, hd, harr]
  · intro i hi
    rcases List.mem_append.mp hi with hi | hi
    · exact hn i hi
    · rcases List.mem_singleton.mp hi with rfl; rfl
  · simp [exec_assignment, appendInstr, ← hs0, hc, hcnt]

theorem exec_print_facts (ty : String) (ie : Option ASTNode) (sv : String)
    (s s' : GenState) (h : exec_print ty ie sv s = .ok s') :
    ∃ Δ, s'.arr = s.arr ++ Δ ∧ (∀ i ∈ Δ, emitsNoCf i = true) ∧
      s'.lCounter = s.lCounter := by
  unfold exec_print at h
  split at h
  · split at h
    · injection h with h
      subst h
      exact ⟨[.printCodeIR "string" (nextStringSym s).1], by simp [appendInstr, nextStringSym],
        by intro i hi; rcases List.mem_singleton.mp hi with rfl; rfl,
        by simp [appendInstr, nextStringSym]⟩
    · match ie, h with
      | some e, h =>
        injection h with h
        subst h
        obtain ⟨d, hd, hn, hc⟩ := exec_expr_facts e s
        refine ⟨d ++ [.printCodeIR "string" (exec_expr e s).1], by simp [appendInstr, hd], ?_,
          by simp [appendInstr, hc]⟩
        intro i hi
        rcases List.mem_append.mp hi with hi | hi
        · exact hn i hi
        · rcases List.mem_singleton.mp hi with rfl; rfl
  · match ie, h with
    | some e, h =>
      injection h with h
      subst h
      obtain ⟨d, hd, hn, hc⟩ := exec_expr_facts e s
      refine ⟨d ++ [.printCodeIR "int" (exec_expr e s).1], by simp [appendInstr, hd], ?_,
        by simp [appendInstr, hc]⟩
      intro i hi
      rcases List.mem_append.mp hi with hi | hi
      · exact hn i hi
      · rcases List.mem_singleton.mp hi with rfl; rfl

theorem exec_declaration_facts (dt : String) (ids : List String) (init : Option ASTNode)
    (s s' : GenState) (h : exec_declaration dt ids init s = .ok s') :
    ∃ Δ, s'.arr = s.arr ++ Δ ∧ (∀ i ∈ Δ, emitsNoCf i = true) ∧
      s'.lCounter = s.lCounter := by
  cases init with
  | none =>
    simp only [exec_declaration] at h
    injection h with h
    subst h
    exact ⟨[], by simp, by simp, by simp⟩
  | some e =>
    simp only [exec_declaration] at h
    split at h
    · exact absurd h (by simp)
    · injection h with h
      subst h
      obtain ⟨d, hd, hn, hc⟩ := exec_expr_facts e { s with
        identifiers := ids.foldl (fun m i => insertMap m i dt) s.identifiers }
      refine ⟨d ++ [.assignmentCode (ids.headD "")
          (exec_expr e { s with
            identifiers := ids.foldl (fun m i => insertMap m i dt) s.identifiers }).1 "" ""],
        by simp [appendInstr, hd], ?_, by simp [appendInstr, hc]⟩
      intro i hi
      rcases List.mem_append.mp hi with hi | hi
      · exact hn i hi
      · rcases List.mem_singleton.mp hi with rfl; rfl

theorem exec_statement_good (o : Option ASTNode) (s : GenState) :
    ∀ s', exec_statement o s = .ok s' →
      s.lCounter ≤ s'.lCounter ∧
        ∃ Δ, s'.arr = s.arr ++ Δ ∧ GoodSeg Δ s.lCounter s'.lCounter := by
  induction o, s using exec_statement.induct
  case case2 =>
    rename_i l r s e herr ihl
    intro s' h
    simp only [exec_statement] at h
    rw [herr] at h
    simp at h
  case case3 =>
    rename_i l r s s1 hok ihl ihr
    intro s' h
    simp only [exec_statement] at h
    split at h
    · simp at h
    · rename_i s1' heq
      have hs1 : s1 = s1' := Except.ok.inj (hok.symm.trans heq)
      subst hs1
      obtain ⟨hle1, d1, ha1, hg1⟩ := ihl s1 heq
      obtain ⟨hle2, d2, ha2, hg2⟩ := ihr s' h
      exact ⟨hle1.trans hle2, d1 ++ d2, by rw [ha2, ha1, List.append_assoc],
        hg1.append hg2 hle1 hle2⟩
  case case4 =>
    rename_i b eb s cl cop cr pc pe px s4 s5 e herr ihb
    intro s' h
    simp only [exec_statement] at h
    split at h
    · simp at h
    · rename_i s6 heq
      exact absurd (herr.symm.trans heq) (by simp)
  case case5 =>
    rename_i b eb s cl cop cr pc pe px s4 s5 s6 hbok s7 s8 e heerr ihb ihe
    intro s' h
    simp only [exec_statement] at h
    split at h
    · simp at h
    · rename_i s6' heq
      have hs6 : s6 = s6' := Except.ok.inj (hbok.symm.trans heq)
      subst hs6
      split at h
      · simp at h
      · rename_i s9 heq2
        exact absurd (heerr.symm.trans heq2) (by simp)
  case case6 =>
    rename_i b eb s cl cop cr pc pe px s4 s5 s6 hbok s7 s8 s9 heok ihb ihe
    intro s' h
    simp only [exec_statement] at h
    split at h
    · simp at h
    · rename_i s6' heq
      have hs6 : s6 = s6' := Except.ok.inj (hbok.symm.trans heq)
      subst hs6
      split at h
      · simp at h
      · rename_i s9' heq2
        have hs9 : s9 = s9' := Except.ok.inj (heok.symm.trans heq2)
        subst hs9
        injection h with h
        subst h
        obtain ⟨dc, lv, rv, hcarr, hcn, hctrue, hccnt⟩ := exec_condition_facts cl cop cr s
        have hpc1 : pc.1 = lbl s.lCounter := hctrue
        have hpccnt : pc.2.lCounter = s.lCounter + 1 := hccnt
        have hpe1 : pe.1 = lbl (s.lCounter + 1) := by
          show "L" ++ Nat.repr pc.2.lCounter = _
          rw [hpccnt]; rfl
        have hpx1 : px.1 = lbl (s.lCounter + 2) := by
          show "L" ++ Nat.repr pe.2.lCounter = _
          show "L" ++ Nat.repr (pc.2.lCounter + 1) = _
          rw [hpccnt]; rfl
        have hs5cnt : s5.lCounter = s.lCounter + 3 := by
          show pc.2.lCounter + 1 + 1 = _
          omega
        have hpxarr : px.2.arr = s.arr ++ dc
            ++ [IRInstr.compareCodeIR lv cop rv (lbl s.lCounter)] := hcarr
        have hs5arr : s5.arr = px.2.arr ++ [IRInstr.jumpCode pe.1]
            ++ [IRInstr.labelCode pc.1] := rfl
        obtain ⟨hle_b, db, hdbarr, hdbg⟩ := ihb s6 heq
        obtain ⟨hle_e, de, hdearr, hdeg⟩ := ihe s9 heq2
        have hs8arr : s8.arr = s6.arr ++ [IRInstr.jumpCode px.1]
            ++ [IRInstr.labelCode pe.1] := rfl
        have hs8cnt : s8.lCounter = s6.lCounter := rfl
        rw [hs5cnt] at hle_b hdbg
        rw [hs8cnt] at hle_e hdeg
        refine ⟨?_, dc ++ [IRInstr.compareCodeIR lv cop rv (lbl s.lCounter)]
          ++ [IRInstr.jumpCode (lbl (s.lCounter + 1))] ++ [IRInstr.labelCode (lbl s.lCounter)]
          ++ db ++ [IRInstr.jumpCode (lbl (s.lCounter + 2))]
          ++ [IRInstr.labelCode (lbl (s.lCounter + 1))] ++ de
          ++ [IRInstr.labelCode (lbl (s.lCounter + 2))], ?_, ?_⟩
        · show s.lCounter ≤ s9.lCounter
          omega
        · show s9.arr ++ [IRInstr.labelCode px.1] = _
          rw [hdearr, hs8arr, hdbarr, hs5arr, hpxarr, hpc1, hpe1, hpx1]
          simp [List.append_assoc]
        · show GoodSeg _ s.lCounter s9.lCounter
          exact GoodSeg.ifShape dc db de lv cop rv s.lCounter s6.lCounter s9.lCounter
            hcn hdbg hdeg hle_b hle_e
  case case7 =>
    rename_i c b eb s hnc
    intro s' h
    cases c
    case condition cl cop cr => exact absurd rfl (hnc cl cop cr)
    all_goals simp [exec_statement] at h
  case case8 =>
    rename_i b s cl cop cr ps pb px s4 pt s5 s6 e herr ihb
    intro s' h
    simp only [exec_statement] at h
    split at h
    · simp at h
    · rename_i s7 heq
      exact absurd (herr.symm.trans heq) (by simp)
  case case9 =>
    rename_i b s cl cop cr ps pb px s4 pt s5 s6 s7 hbok ihb
    intro s' h
    simp only [exec_statement] at h
    split at h
    · simp at h
    · rename_i s7' heq
      have hs7 : s7 = s7' := Except.ok.inj (hbok.symm.trans heq)
      subst hs7
      injection h with h
      subst h
      obtain ⟨dc, lv, rv, hcarr, hcn, hctrue, hccnt⟩ := exec_condition_facts cl cop cr s4
      have hs4cnt : s4.lCounter = s.lCounter + 3 := rfl
      have hps1 : ps.1 = lbl s.lCounter := rfl
      have hpx1 : px.1 = lbl (s.lCounter + 2) := rfl
      have hpt1 : pt.1 = lbl (s.lCounter + 3) := by rw [hctrue, hs4cnt]
      have hptcnt : pt.2.lCounter = s.lCounter + 4 := by
        rw [hccnt, hs4cnt]
      have hptarr : pt.2.arr = s.arr ++ [IRInstr.labelCode (lbl s.lCounter)] ++ dc
          ++ [IRInstr.compareCodeIR lv cop rv (lbl (s.lCounter + 3))] := by
        rw [hcarr, hs4cnt]
        rfl
      obtain ⟨hle_b, db, hdbarr, hdbg⟩ := ihb s7 heq
      have hs6arr : s6.arr = pt.2.arr ++ [IRInstr.jumpCode px.1]
          ++ [IRInstr.labelCode pt.1] := rfl
      have hs6cnt : s6.lCounter = pt.2.lCounter := rfl
      rw [hs6cnt, hptcnt] at hle_b hdbg
      refine ⟨?_, [IRInstr.labelCode (lbl s.lCounter)] ++ dc
        ++ [IRInstr.compareCodeIR lv cop rv (lbl (s.lCounter + 3))]
        ++ [IRInstr.jumpCode (lbl (s.lCounter + 2))]
        ++ [IRInstr.labelCode (lbl (s.lCounter + 3))] ++ db
        ++ [IRInstr.jumpCode (lbl s.lCounter)]
        ++ [IRInstr.labelCode (lbl (s.lCounter + 2))], ?_, ?_⟩
      · show s.lCounter ≤ s7.lCounter
        omega
      · show s7.arr ++ [IRInstr.jumpCode ps.1] ++ [IRInstr.labelCode px.1] = _
        rw [hdbarr, hs6arr, hptarr, hps1, hpx1, hpt1]
        simp [List.append_assoc]
      · show GoodSeg _ s.lCounter s7.lCounter
        exact GoodSeg.whileShape dc db lv cop rv s.lCounter s7.lCounter hcn hdbg hle_b
  case case10 =>
    rename_i c b s hnc
    intro s' h
    cases c
    case condition cl cop cr => exact absurd rfl (hnc cl cop cr)
    all_goals simp [exec_statement] at h
  case case11 =>
    rename_i ty ie sv s
    intro s' h
    simp only [exec_statement] at h
    obtain ⟨d, hd, hn, hc⟩ := exec_print_facts ty ie sv s s' h
    exact ⟨le_of_eq hc.symm, d, hd, GoodSeg.of_noCf hn _ _⟩
  case case12 =>
    rename_i dt ids init s
    intro s' h
    simp only [exec_statement] at h
    obtain ⟨d, hd, hn, hc⟩ := exec_declaration_facts dt ids init s s' h
    exact ⟨le_of_eq hc.symm, d, hd, GoodSeg.of_noCf hn _ _⟩
  case case13 =>
    rename_i ident e s
    intro s' h
    simp only [exec_statement] at h
    injection h with h
    subst h
    obtain ⟨d, hd, hn, hc⟩ := exec_assignment_facts ident e s
    exact ⟨le_of_eq hc.symm, d, hd, GoodSeg.of_noCf hn _ _⟩
  all_goals
    intro s' h
    simp only [exec_statement] at h
    injection h with h
    subst h
    exact ⟨le_rfl, [], by simp, GoodSeg.nil _ _⟩

/-! ### Backend model (src/src/codegen.cpp)

The output buffer is modelled as the list of strings passed to
`CodeGenerator::pr`; the C++ code appends one newline after each, so
joining this list with newlines reproduces the emitted bytes. -/

/-- The `.bss` reservation block for the integer-print helper. -/
def digitReserveText : String := "\tdigitSpace resb 100\n\tdigitSpacePos resb 8\n\n"

/-- The `.text` section header emitted at the end of `gen_start`. -/
def textHeader : String := "section .text\n\tglobal _start\n\n_start:\n"

/-- The exit epilogue emitted by `gen_end`. -/
def endText : String := "\tmov rax, 60      ; __NR_exit\n\tmov rdi, 0       ; status\n\tsyscall\n\n"

/-- The `print_num` helper routine emitted by `gen_print_num_function`. -/
def printNumText : String := "\nprint_num:\n    mov rcx, digitSpace       ; buffer start\n    mov rbx, 10\n    mov rax, rdi              ; number\n\n    ; handle negative\n    cmp rax, 0\n    jge .loop\n    neg rax\n    mov byte [rcx], '-'\n    inc rcx\n\n.loop:\n    xor rdx, rdx\n    div rbx                   ; rax = rax/10, rdx = rax%10\n    add dl, '0'\n    mov [rcx], dl\n    inc rcx\n    test rax, rax\n    jnz .loop\n\n    ; rcx now points one past last char\n    ; reverse-print\n    mov rsi, rcx              ; rsi = end\n    dec rsi                   ; last digit\n    mov rdx, 1                ; write 1 byte at a time\n\n.rev_loop:\n    mov rax, 1                ; write\n    mov rdi, 1                ; stdout\n    syscall\n    dec rsi\n    cmp rsi, digitSpace\n    jl .newline\n    jmp .rev_loop\n\n.newline:\n    mov byte [digitSpacePos], 10\n    mov rax, 1\n    mov rdi, 1\n    mov rsi, digitSpacePos\n    mov rdx, 1\n    syscall\n    ret"

/-- The `print_string` helper routine emitted by `gen_print_string_function`. -/
def printStringText : String := "\nprint_string:\n    ; rdi = char*\n    mov rsi, rdi\n    xor rdx, rdx\n\n.len_loop:\n    cmp byte [rsi + rdx], 0\n    je .write\n    inc rdx\n    jmp .len_loop\n\n.write:\n    mov rax, 1      ; sys_write\n    mov rdi, 1      ; stdout\n    syscall\n    ret"

/-- `op_to_asm`: sorted-table lookup of the arithmetic mnemonic,
empty string when absent. -/
def op_to_asm (op : String) : String :=
  if op = "*" then "imul"
  else if op = "+" then "add"
  else if op = "-" then "sub"
  else if op = "/" then "idiv"
  else ""

/-- `cmp_to_jmp`: sorted-table lookup of the conditional-jump mnemonic,
empty string when absent. -/
def cmp_to_jmp (c : String) : String :=
  if c = "!=" then "jne"
  else if c = "<" then "jl"
  else if c = "<=" then "jle"
  else if c = "==" then "je"
  else if c = ">" then "jg"
  else if c = ">=" then "jge"
  else ""

/-- `a[i]` on a `std::string`: the character at `i`, or the NUL character
at the one-past-the-end position (well defined in C++11). -/
def strAt (a : String) (i : Nat) : Char := a.data.getD i (Char.ofNat 0)

/-- `std::isdigit` on the default locale. -/
def isDigitCh (c : Char) : Bool := 48 ≤ c.toNat && c.toNat ≤ 57

/-- The operand test of `CodeGenerator::handleVar`: a leading ASCII digit,
or a leading minus followed by a digit, marks an immediate literal. -/
def isImmediate (a : String) : Bool :=
  isDigitCh (strAt a 0) || (strAt a 0 == Char.ofNat 45 && isDigitCh (strAt a 1))

/-- `CodeGenerator::handleVar`: immediates verbatim, everything else as a
memory operand. -/
def handleVar (a : String) : String :=
  if isImmediate a then a else "[" ++ a ++ "]"

/-- `CodeGenerator::gen_assignment`, as the list of emitted lines. -/
def gen_assignment (consts : List (String × String)) (v l op r : String) : List String :=
  if op = "" then
    (if containsKey consts l then ["\tlea rax, [rel " ++ l ++ "]"]
     else ["\tmov rax, " ++ handleVar l]) ++
    ["\tmov " ++ handleVar v ++ ", rax"]
  else
    ["\tmov rax, " ++ handleVar l] ++
    (if op = "/" then ["\tcqo", "\tmov rbx, " ++ handleVar r, "\tidiv rbx"]
     else ["\tmov rbx, " ++ handleVar r, "\t" ++ op_to_asm op ++ " rax, rbx"]) ++
    ["\tmov " ++ handleVar v ++ ", rax"]

/-- One IR instruction's emitted lines (`gen_code`'s visitor). -/
def gen_instr (consts : List (String × String)) : IRInstr → List String
  | .assignmentCode v l op r => gen_assignment consts v l op r
  | .jumpCode d => ["\tjmp " ++ d]
  | .labelCode l => [l ++ ":"]
  | .compareCodeIR l op r j =>
      ["\tmov rax, " ++ handleVar l, "\tcmp rax, " ++ handleVar r,
       "\t" ++ cmp_to_jmp op ++ " " ++ j]
  | .printCodeIR ty v =>
      if ty = "int" then ["\tmov rdi, " ++ handleVar v, "\tcall print_num"]
      else (if containsKey consts v then ["\tmov rdi, " ++ v]
            else ["\tmov rdi, [" ++ v ++ "]"]) ++ ["\tcall print_string"]

/-- `CodeGenerator::gen_code`: one pass over the IR stream. -/
def gen_code (consts : List (String × String)) (code : List IRInstr) : List String :=
  (code.map (gen_instr consts)).flatten

/-- One `.data` line for a string constant: decimal byte values, then the
trailing newline and NUL (`10, 0`). -/
def dbLine (name value : String) : String :=
  "\t" ++ name ++ " db " ++
    String.join (value.data.map (fun ch => Nat.repr ch.toNat ++ ", ")) ++ "10, 0"

/-- `CodeGenerator::gen_start`: the `.data` section and the text header. -/
def gen_start (consts : List (String × String)) : List String :=
  ["section .data"] ++ consts.map (fun kv => dbLine kv.1 kv.2) ++ [textHeader]

/-- `CodeGenerator::gen_variables`: the `.bss` section. -/
def gen_variables (needNum : Bool) (ids : List (String × String)) : List String :=
  ["section .bss"] ++ (if needNum then [digitReserveText] else []) ++
    ids.map (fun kv => "\t" ++ kv.1 ++ " resb 8")

/-- The prescan of `writeAsm`: fold over the IR recording whether an
integer print and/or a string print occurs. -/
def computeNeeds (code : List IRInstr) : Bool × Bool :=
  code.foldl (fun acc i => match i with
    | .printCodeIR ty _ => if ty = "string" then (acc.1, true) else (true, acc.2)
    | _ => acc) (false, false)

/-- `CodeGenerator::writeAsm`, as the list of emitted strings, in order:
`.bss`, `.data` and text header, the translated IR, the exit epilogue, and
the needed helper routines. -/
def writeAsm (code : List IRInstr) (ids consts : List (String × String)) : List String :=
  gen_variables (computeNeeds code).1 ids ++ gen_start consts ++
    gen_code consts code ++ [endText] ++
    (if (computeNeeds code).1 then [printNumText] else []) ++
    (if (computeNeeds code).2 then [printStringText] else [])

/-- An IR instruction that is an integer print (`kind` other than
`"string"`). -/
def isIntPrint : IRInstr → Bool
  | .printCodeIR ty _ => ty ≠ "string"
  | _ => false

/-- An IR instruction that is a string print. -/
def isStrPrint : IRInstr → Bool
  | .printCodeIR ty _ => ty = "string"
  | _ => false

/-! ### Concrete scenario inputs -/

/-- The AST of Scenario C: `while (i < 10) { i = i + 1; }`. -/
def whileAstC : ASTNode :=
  .whileStatement (.condition (.identifier "i") "<" (.number "10"))
    (some (.assignment "i" (.binOp (.identifier "i") "+" (.number "1"))))

/-- The IR sequence Scenario C (and claim C1) says the while loop lowers
to: the Compare targets `L3` and the false jump targets `L4`. -/
def claimedIR_C1 : List IRInstr :=
  [.labelCode "L1", .compareCodeIR "i" "<" "10" "L3", .jumpCode "L4", .labelCode "L3",
   .assignmentCode "T1" "i" "+" "1", .assignmentCode "i" "T1" "" "", .jumpCode "L1",
   .labelCode "L4"]

/-- The IR sequence the generator actually produces for Scenario C: the
start/spare/end labels `L1`/`L2`/`L3` are allocated before the condition,
whose true label is therefore `L4`; the Compare targets `L4` and the
false jump targets `L3`. -/
def actualIR_C1 : List IRInstr :=
  [.labelCode "L1", .compareCodeIR "i" "<" "10" "L4", .jumpCode "L3", .labelCode "L4",
   .assignmentCode "T1" "i" "+" "1", .assignmentCode "i" "T1" "" "", .jumpCode "L1",
   .labelCode "L3"]

/-- The full generator state after lowering Scenario C from a fresh
generator. -/
def whileGenStateC : GenState :=
  { arr := actualIR_C1, identifiers := [("i", "string"), ("T1", "int")], constants := [],
    tCounter := 2, lCounter := 5, sCounter := 1 }

theorem runGen_whileAstC : runGen (some whileAstC) = .ok whileGenStateC := by
  rw [runGen]
  simp only [whileAstC, exec_statement]
  rfl

/-- Claim C1 (counterexample): a fresh generator lowers
`while (i < 10) { i = i + 1; }` to `actualIR_C1`, which differs from the
eight-instruction sequence of Scenario C (`claimedIR_C1`): the Compare
targets `L4`, not `L3`, and the false jump targets `L3`, not `L4`. -/
theorem c1_scenarioC_counterexample :
    Except.map (fun g : GenState => g.arr) (runGen (some whileAstC)) = .ok actualIR_C1 ∧
      actualIR_C1 ≠ claimedIR_C1 := by
  refine ⟨?_, by decide⟩
  rw [runGen_whileAstC]
  rfl

/-- Claim C1 (amended): for the while-loop source `while (i < 10) { i = i + 1; }`
lowered by a fresh IR generator, the produced IR is exactly the
eight-instruction sequence Label `L1`; Compare `i < 10` goto `L4`;
Jump `L3`; Label `L4`; Assignment `T1 = i + 1`; Assignment `i = T1`;
Jump `L1`; Label `L3` — with label `L2` allocated (the final counter
value 5 shows `L1`–`L4` were all allocated) but never emitted in any
instruction. -/
theorem c1_scenarioC_amended :
    Except.map (fun g : GenState => g.arr) (runGen (some whileAstC)) = .ok actualIR_C1 ∧
      Except.map (fun g : GenState => g.lCounter) (runGen (some whileAstC)) = .ok 5 ∧
      "L2" ∉ labelsOf actualIR_C1 ∧ "L2" ∉ targetsOf actualIR_C1 := by
  refine ⟨?_, ?_, by decide, by decide⟩ <;> rw [runGen_whileAstC] <;> rfl

/-- Claim C9: running the IR generator twice on the same AST, each time from a
fresh generator state (all counters at 1, empty tables), yields the same
`GeneratedIR` bundle: equal instruction sequences and equal identifier
and constant tables. -/
theorem c9_determinism (root : Option ASTNode) (g1 g2 : GenState)
    (h1 : runGen root = .ok g1) (h2 : runGen root = .ok g2) : get g1 = get g2 := by
  rw [h1] at h2
  injection h2 with h2
  rw [h2]

theorem c9_determinism_witness :
    runGen (some whileAstC) = .ok whileGenStateC ∧
      get whileGenStateC = get whileGenStateC :=
  ⟨runGen_whileAstC,
    c9_determinism (some whileAstC) whileGenStateC whileGenStateC
      runGen_whileAstC runGen_whileAstC⟩

/-- Claim C10: constructing the generator on a null root signals no error, and
`get` returns a bundle whose instruction array, identifier table, and
constant table are all empty. -/
theorem c10_null_root :
    runGen none = .ok initState ∧ (get initState).code = [] ∧
      (get initState).identifiers = [] ∧ (get initState).constants = [] := by
  refine ⟨?_, rfl, rfl, rfl⟩
  rw [runGen]
  simp only [exec_statement]

theorem lookupMap_insertMap_self (m : List (String × String)) (k v : String) :
    lookupMap (insertMap m k v) k = some v := by
  induction m with
  | nil => simp [insertMap, lookupMap]
  | cons kv rest ih =>
    by_cases h : kv.1 = k
    · simp [insertMap, h, lookupMap]
    · simp [insertMap, h, lookupMap, ih]

/-- Claim C5: lowering a declaration signals the fatal error
`"Init only allowed for single variable declaration"` precisely when an
initializer is present and the identifier list does not have length one;
with an initializer and a single identifier, the identifier is recorded
with its declared type and a copy assignment is appended whose `var` is
the identifier, whose `left` is the lowered initializer, and whose `op`
and `right` are empty. -/
theorem c5_declaration_init_error (dt : String) (ids : List String)
    (init : Option ASTNode) (s : GenState) :
    (exec_declaration dt ids init s
        = .error "Init only allowed for single variable declaration"
      ↔ init.isSome ∧ ids.length ≠ 1) ∧
    (∀ e ident, init = some e → ids = [ident] →
      lookupMap (insertMap s.identifiers ident dt) ident = some dt ∧
      exec_declaration dt ids init s
        = .ok (appendInstr
            (exec_expr e { s with identifiers := insertMap s.identifiers ident dt }).2
            (.assignmentCode ident
              (exec_expr e
                { s with identifiers := insertMap s.identifiers ident dt }).1
              "" ""))) := by
  constructor
  · cases init with
    | none => simp [exec_declaration]
    | some e =>
      by_cases hlen : ids.length = 1
      · simp [exec_declaration, hlen]
      · simp [exec_declaration, hlen]
  · rintro e ident rfl rfl
    refine ⟨lookupMap_insertMap_self _ _ _, ?_⟩
    simp [exec_declaration, List.foldl]

theorem c5_witness :
    exec_declaration "int" ["x", "y"] (some (.number "2")) initState
        = .error "Init only allowed for single variable declaration" ∧
      exec_declaration "int" ["x"] (some (.number "2")) initState
        = .ok (appendInstr
            (exec_expr (.number "2")
              { initState with
                identifiers := insertMap initState.identifiers "x" "int" }).2
            (.assignmentCode "x"
              (exec_expr (.number "2")
                { initState with
                  identifiers := insertMap initState.identifiers "x" "int" }).1
              "" "")) :=
  ⟨(c5_declaration_init_error "int" ["x", "y"] (some (.number "2")) initState).1.mpr
      ⟨rfl, by decide⟩,
    ((c5_declaration_init_error "int" ["x"] (some (.number "2")) initState).2
      (.number "2") "x" rfl rfl).2⟩

/-- Claim C6: lowering an assignment statement registers a target identifier
that is absent from the identifier table with type `"string"` before the
right-hand side is lowered (so the lookup in the registered table yields
`"string"`, and the right-hand side is lowered in that extended table);
a present identifier leaves the table untouched (the right-hand side is
lowered in the unchanged state); in both cases a copy assignment is
appended whose `var` is the identifier, whose `left` is the lowered
right-hand side, and whose `op` and `right` are empty. -/
theorem c6_assignment_default_string (ident : String) (e : ASTNode) (s s' : GenState)
    (h : exec_statement (some (.assignment ident e)) s = .ok s') :
    (containsKey s.identifiers ident = false →
      lookupMap (insertMap s.identifiers ident "string") ident = some "string" ∧
      s' = appendInstr
        (exec_expr e
          { s with identifiers := insertMap s.identifiers ident "string" }).2
        (.assignmentCode ident
          (exec_expr e
            { s with identifiers := insertMap s.identifiers ident "string" }).1
          "" "")) ∧
    (containsKey s.identifiers ident = true →
      s' = appendInstr (exec_expr e s).2
        (.assignmentCode ident (exec_expr e s).1 "" "")) := by
  simp only [exec_statement] at h
  injection h with h
  subst h
  constructor
  · intro hc
    refine ⟨lookupMap_insertMap_self _ _ _, ?_⟩
    simp [exec_assignment, hc]
  · intro hc
    simp [exec_assignment, hc]

/-- The generator state after lowering `x = 1` from a fresh generator. -/
def assignGenState : GenState :=
  { arr := [.assignmentCode "x" "1" "" ""], identifiers := [("x", "string")],
    constants := [], tCounter := 1, lCounter := 1, sCounter := 1 }

theorem c6_witness :
    containsKey initState.identifiers "x" = false ∧
      (lookupMap (insertMap initState.identifiers "x" "string") "x" = some "string" ∧
        assignGenState = appendInstr
          (exec_expr (.number "1")
            { initState with
              identifiers := insertMap initState.identifiers "x" "string" }).2
          (.assignmentCode "x"
            (exec_expr (.number "1")
              { initState with
                identifiers := insertMap initState.identifiers "x" "string" }).1
            "" "")) :=
  ⟨by decide,
    (c6_assignment_default_string "x" (.number "1") initState assignGenState
      (by simp only [exec_statement]; rfl)).1 (by decide)⟩

/-- Claim C7: for an IR assignment `t = a / b` whose three operands are not
immediate literals (and with `a` and `b` not string-constant symbols),
the backend emits exactly, in order: `mov rax, [a]`; `cqo`;
`mov rbx, [b]`; `idiv rbx`; `mov [t], rax`. -/
theorem c7_division_assembly (consts : List (String × String)) (t a b : String)
    (hca : containsKey consts a = false) (hcb : containsKey consts b = false)
    (ha : isImmediate a = false) (hb : isImmediate b = false)
    (ht : isImmediate t = false) :
    gen_assignment consts t a "/" b =
      ["\tmov rax, [" ++ a ++ "]", "\tcqo", "\tmov rbx, [" ++ b ++ "]",
       "\tidiv rbx", "\tmov [" ++ t ++ "], rax"] := by
  simp [gen_assignment, handleVar, ha, hb, ht]
  refine ⟨?_, ?_, ?_⟩ <;> (apply String.ext; simp)

theorem c7_witness :
    isImmediate "a" = false ∧
      gen_assignment [] "T1" "a" "/" "b" =
        ["\tmov rax, [a]", "\tcqo", "\tmov rbx, [b]", "\tidiv rbx",
         "\tmov [T1], rax"] :=
  ⟨by decide,
    by rw [c7_division_assembly [] "T1" "a" "b" (by decide) (by decide) (by decide)
      (by decide) (by decide)]; rfl⟩

/-- Claim C2: lowering `While(Condition(cl, cop, cr), body)` from label counter
`ℓ` allocates the start label `L ℓ`, then the spare body label `L (ℓ+1)`,
then the end label `L (ℓ+2)` — all before the condition is lowered, whose
`Compare` targets the fourth label `L (ℓ+3)` — and appends exactly, in
order: `Label` start; the condition lowering (assignment instructions for
the operands, then its `Compare` with target `L (ℓ+3)`); `Jump` end;
`Label (ℓ+3)`; the lowered body; `Jump` start; `Label` end.  The spare
label `L (ℓ+1)` is never emitted, as a label or as a target, anywhere in
the appended segment. -/
theorem c2_while_lowering_shape (cl : ASTNode) (cop : String) (cr : ASTNode)
    (body : Option ASTNode) (s s' : GenState)
    (h : exec_statement (some (.whileStatement (.condition cl cop cr) body)) s = .ok s') :
    s.lCounter + 4 ≤ s'.lCounter ∧
    ∃ dc lv rv db seg,
      seg = [IRInstr.labelCode (lbl s.lCounter)] ++ dc
        ++ [IRInstr.compareCodeIR lv cop rv (lbl (s.lCounter + 3))]
        ++ [IRInstr.jumpCode (lbl (s.lCounter + 2))]
        ++ [IRInstr.labelCode (lbl (s.lCounter + 3))] ++ db
        ++ [IRInstr.jumpCode (lbl s.lCounter)]
        ++ [IRInstr.labelCode (lbl (s.lCounter + 2))] ∧
      s'.arr = s.arr ++ seg ∧
      (∀ i ∈ dc, emitsNoCf i = true) ∧
      lbl (s.lCounter + 1) ∉ labelsOf seg ∧
      lbl (s.lCounter + 1) ∉ targetsOf seg := by
  simp only [exec_statement] at h
  split at h
  · simp at h
  · rename_i s7 heq
    injection h with h
    subst h
    set ps := nextLabel s with hps
    set pb := nextLabel ps.2 with hpb
    set px := nextLabel pb.2 with hpx
    set s4 := appendInstr px.2 (IRInstr.labelCode ps.1) with hs4
    set pt := exec_condition cl cop cr s4 with hpt
    set s5 := appendInstr pt.2 (IRInstr.jumpCode px.1) with hs5
    set s6 := appendInstr s5 (IRInstr.labelCode pt.1) with hs6
    obtain ⟨dc, lv, rv, hcarr, hcn, hctrue, hccnt⟩ := exec_condition_facts cl cop cr s4
    rw [← hpt] at hcarr hctrue hccnt
    have hs4cnt : s4.lCounter = s.lCounter + 3 := rfl
    have hs4arr : s4.arr = s.arr ++ [IRInstr.labelCode (lbl s.lCounter)] := rfl
    have hps1 : ps.1 = lbl s.lCounter := rfl
    have hpx1 : px.1 = lbl (s.lCounter + 2) := rfl
    rw [hs4cnt] at hctrue
    rw [hs4arr, hs4cnt] at hcarr
    have hptcnt : pt.2.lCounter = s.lCounter + 4 := by rw [hccnt, hs4cnt]
    obtain ⟨hleb, db, hdbarr, hdbg⟩ := exec_statement_good body s6 s7 heq
    have hs6cnt : s6.lCounter = pt.2.lCounter := rfl
    have hs6arr : s6.arr = pt.2.arr ++ [IRInstr.jumpCode px.1]
        ++ [IRInstr.labelCode pt.1] := rfl
    rw [hs6cnt, hptcnt] at hleb hdbg
    refine ⟨by show s.lCounter + 4 ≤ s7.lCounter; omega,
      dc, lv, rv, db, _, rfl, ?_, hcn, ?_, ?_⟩
    · show s7.arr ++ [IRInstr.jumpCode ps.1] ++ [IRInstr.labelCode px.1] = _
      rw [hdbarr, hs6arr, hcarr, hps1, hpx1, hctrue]
      simp [List.append_assoc]
    · intro hm
      have hLc := labelsOf_eq_nil_of_noCf hcn
      simp only [labelsOf_append, labelsOf_cons_label, labelsOf_cons_jump,
        labelsOf_cons_compare, labelsOf_nil, hLc, List.nil_append, List.append_nil,
        List.mem_append, List.mem_cons, List.not_mem_nil, or_false,
        List.mem_singleton] at hm
      rcases hm with ((hm | hm) | hm) | hm
      · exact absurd (lbl_injective hm) (by omega)
      · exact absurd (lbl_injective hm) (by omega)
      · exact absurd (mem_labels_bound hdbg.labels_range hm) (by omega)
      · exact absurd (lbl_injective hm) (by omega)
    · intro hm
      have hTc := targetsOf_eq_nil_of_noCf hcn
      simp only [targetsOf_append, targetsOf_cons_label, targetsOf_cons_jump,
        targetsOf_cons_compare, targetsOf_nil, hTc, List.nil_append, List.append_nil,
        List.mem_append, List.mem_cons, List.not_mem_nil, or_false,
        List.mem_singleton] at hm
      rcases hm with ((hm | hm) | hm) | hm
      · exact absurd (lbl_injective hm) (by omega)
      · exact absurd (lbl_injective hm) (by omega)
      · exact absurd (mem_labels_bound hdbg.targets_range hm) (by omega)
      · exact absurd (lbl_injective hm) (by omega)

theorem c2_witness :
    initState.lCounter + 4 ≤ whileGenStateC.lCounter ∧
    ∃ dc lv rv db seg,
      seg = [IRInstr.labelCode (lbl initState.lCounter)] ++ dc
        ++ [IRInstr.compareCodeIR lv "<" rv (lbl (initState.lCounter + 3))]
        ++ [IRInstr.jumpCode (lbl (initState.lCounter + 2))]
        ++ [IRInstr.labelCode (lbl (initState.lCounter + 3))] ++ db
        ++ [IRInstr.jumpCode (lbl initState.lCounter)]
        ++ [IRInstr.labelCode (lbl (initState.lCounter + 2))] ∧
      whileGenStateC.arr = initState.arr ++ seg ∧
      (∀ i ∈ dc, emitsNoCf i = true) ∧
      lbl (initState.lCounter + 1) ∉ labelsOf seg ∧
      lbl (initState.lCounter + 1) ∉ targetsOf seg :=
  c2_while_lowering_shape (.identifier "i") "<" (.number "10")
    (some (.assignment "i" (.binOp (.identifier "i") "+" (.number "1"))))
    initState whileGenStateC runGen_whileAstC

/-- Claim C3: lowering `If(Condition(cl, cop, cr), then, else?)` from label
counter `ℓ` first lowers the condition (assignment instructions for the
operands, then its `Compare` targeting the true label `L ℓ` it
allocates), then allocates the else label `L (ℓ+1)` and the end label
`L (ℓ+2)` in that order, and appends exactly, in order: `Jump` else;
`Label` true; the lowered then-body; `Jump` end; `Label` else; the
lowered else-body (empty when the else child is absent); `Label` end. -/
theorem c3_if_lowering_shape (cl : ASTNode) (cop : String) (cr : ASTNode)
    (b eb : Option ASTNode) (s s' : GenState)
    (h : exec_statement (some (.ifStatement (.condition cl cop cr) b eb)) s = .ok s') :
    s.lCounter + 3 ≤ s'.lCounter ∧
    ∃ dc lv rv db de,
      s'.arr = s.arr ++ dc
        ++ [IRInstr.compareCodeIR lv cop rv (lbl s.lCounter)]
        ++ [IRInstr.jumpCode (lbl (s.lCounter + 1))]
        ++ [IRInstr.labelCode (lbl s.lCounter)] ++ db
        ++ [IRInstr.jumpCode (lbl (s.lCounter + 2))]
        ++ [IRInstr.labelCode (lbl (s.lCounter + 1))] ++ de
        ++ [IRInstr.labelCode (lbl (s.lCounter + 2))] ∧
      (∀ i ∈ dc, emitsNoCf i = true) ∧
      (eb = none → de = []) := by
  simp only [exec_statement] at h
  split at h
  · simp at h
  · rename_i s6 heq
    split at h
    · simp at h
    · rename_i s9 heq2
      injection h with h
      subst h
      set pc := exec_condition cl cop cr s with hpc
      set pe := nextLabel pc.2 with hpe
      set px := nextLabel pe.2 with hpx
      set s4 := appendInstr px.2 (IRInstr.jumpCode pe.1) with hs4
      set s5 := appendInstr s4 (IRInstr.labelCode pc.1) with hs5
      set s8 := appendInstr (appendInstr s6 (IRInstr.jumpCode px.1))
        (IRInstr.labelCode pe.1) with hs8
      obtain ⟨dc, lv, rv, hcarr, hcn, hctrue, hccnt⟩ := exec_condition_facts cl cop cr s
      rw [← hpc] at hcarr hctrue hccnt
      have hpe1 : pe.1 = lbl (s.lCounter + 1) := by
        show "L" ++ Nat.repr pc.2.lCounter = _
        rw [hccnt]; rfl
      have hpx1 : px.1 = lbl (s.lCounter + 2) := by
        show "L" ++ Nat.repr (pc.2.lCounter + 1) = _
        rw [hccnt]; rfl
      have hs5cnt : s5.lCounter = s.lCounter + 3 := by
        show pc.2.lCounter + 1 + 1 = _
        rw [hccnt]
      have hs5arr : s5.arr = pc.2.arr ++ [IRInstr.jumpCode pe.1]
          ++ [IRInstr.labelCode pc.1] := rfl
      obtain ⟨hleb, db, hdbarr, hdbg⟩ := exec_statement_good b s5 s6 heq
      rw [hs5cnt] at hleb hdbg
      obtain ⟨hlee, de, hdearr, hdeg⟩ := exec_statement_good eb s8 s9 heq2
      have hs8cnt : s8.lCounter = s6.lCounter := rfl
      have hs8arr : s8.arr = s6.arr ++ [IRInstr.jumpCode px.1]
          ++ [IRInstr.labelCode pe.1] := rfl
      rw [hs8cnt] at hlee hdeg
      refine ⟨by show s.lCounter + 3 ≤ s9.lCounter; omega,
        dc, lv, rv, db, de, ?_, hcn, ?_⟩
      · show s9.arr ++ [IRInstr.labelCode px.1] = _
        rw [hdearr, hs8arr, hdbarr, hs5arr, hcarr, hctrue, hpe1, hpx1]
        try simp [List.append_assoc]
      · rintro rfl
        simp only [exec_statement] at heq2
        injection heq2 with h2
        subst h2
        have hlen := congrArg List.length hdearr
        simp at hlen
        exact hlen

/-- The AST of Scenario B: `if (a == 1) { print(a); } else { print(0); }`. -/
def ifAstB : ASTNode :=
  .ifStatement (.condition (.identifier "a") "==" (.number "1"))
    (some (.printStatement "int" (some (.identifier "a")) ""))
    (some (.printStatement "int" (some (.number "0")) ""))

/-- The full generator state after lowering Scenario B from a fresh
generator. -/
def ifGenStateB : GenState :=
  { arr := [.compareCodeIR "a" "==" "1" "L1", .jumpCode "L2", .labelCode "L1",
      .printCodeIR "int" "a", .jumpCode "L3", .labelCode "L2",
      .printCodeIR "int" "0", .labelCode "L3"],
    identifiers := [], constants := [], tCounter := 1, lCounter := 4, sCounter := 1 }

theorem runGen_ifAstB : runGen (some ifAstB) = .ok ifGenStateB := by
  rw [runGen]
  simp only [ifAstB, exec_statement]
  rfl

theorem c3_witness :
    initState.lCounter + 3 ≤ ifGenStateB.lCounter ∧
    ∃ dc lv rv db de,
      ifGenStateB.arr = initState.arr ++ dc
        ++ [IRInstr.compareCodeIR lv "==" rv (lbl initState.lCounter)]
        ++ [IRInstr.jumpCode (lbl (initState.lCounter + 1))]
        ++ [IRInstr.labelCode (lbl initState.lCounter)] ++ db
        ++ [IRInstr.jumpCode (lbl (initState.lCounter + 2))]
        ++ [IRInstr.labelCode (lbl (initState.lCounter + 1))] ++ de
        ++ [IRInstr.labelCode (lbl (initState.lCounter + 2))] ∧
      (∀ i ∈ dc, emitsNoCf i = true) ∧
      (some (ASTNode.printStatement "int" (some (.number "0")) "") = none → de = []) :=
  c3_if_lowering_shape (.identifier "a") "==" (.number "1")
    (some (.printStatement "int" (some (.identifier "a")) ""))
    (some (.printStatement "int" (some (.number "0")) ""))
    initState ifGenStateB runGen_ifAstB

/-- Claim C4: in every IR stream the generator produces (from a fresh
generator, for any root on which generation succeeds — in particular any
AST satisfying the §3.1 invariants that compiles), every `Jump` target
and every `Compare` target equals the name of exactly one `Label`
instruction of that same stream. -/
theorem c4_targets_unique (root : Option ASTNode) (s' : GenState)
    (h : runGen root = .ok s') :
    ∀ t ∈ targetsOf s'.arr, (labelsOf s'.arr).count t = 1 := by
  obtain ⟨hle, d, harr, hg⟩ := exec_statement_good root initState s' h
  have harr' : s'.arr = d := by simpa [initState] using harr
  intro t ht
  rw [harr'] at ht ⊢
  exact List.count_eq_one_of_mem hg.labels_nodup (hg.targets_defined t ht)

theorem c4_witness :
    runGen (some whileAstC) = .ok whileGenStateC ∧
      "L3" ∈ targetsOf whileGenStateC.arr ∧
      (labelsOf whileGenStateC.arr).count "L3" = 1 :=
  ⟨runGen_whileAstC, by decide,
    c4_targets_unique (some whileAstC) whileGenStateC runGen_whileAstC "L3" (by decide)⟩

/-! ### C8 support: the prescan flags, and line-shape discrimination -/

theorem computeNeeds_aux (code : List IRInstr) : ∀ a b : Bool,
    code.foldl (fun acc i => match i with
      | .printCodeIR ty _ => if ty = "string" then (acc.1, true) else (true, acc.2)
      | _ => acc) (a, b) = (a || code.any isIntPrint, b || code.any isStrPrint) := by
  induction code with
  | nil => intro a b; simp
  | cons i rest ih =>
    intro a b
    cases i with
    | printCodeIR ty v =>
      by_cases hty : ty = "string"
      · simp [List.foldl_cons, List.any_cons, isIntPrint, isStrPrint, hty, ih]
      · simp [List.foldl_cons, List.any_cons, isIntPrint, isStrPrint, hty, ih]
    | assignmentCode v l op r => simp [List.foldl_cons, List.any_cons, isIntPrint, isStrPrint, ih]
    | jumpCode d => simp [List.foldl_cons, List.any_cons, isIntPrint, isStrPrint, ih]
    | labelCode l => simp [List.foldl_cons, List.any_cons, isIntPrint, isStrPrint, ih]
    | compareCodeIR l o r j => simp [List.foldl_cons, List.any_cons, isIntPrint, isStrPrint, ih]

theorem computeNeeds_spec (code : List IRInstr) :
    computeNeeds code = (code.any isIntPrint, code.any isStrPrint) := by
  simpa [computeNeeds] using computeNeeds_aux code false false

theorem any_isIntPrint_iff (code : List IRInstr) :
    code.any isIntPrint = true ↔
      ∃ ty v, IRInstr.printCodeIR ty v ∈ code ∧ ty ≠ "string" := by
  rw [List.any_eq_true]
  constructor
  · rintro ⟨i, hi, hp⟩
    cases i with
    | printCodeIR ty v =>
      simp only [isIntPrint, decide_eq_true_eq] at hp
      exact ⟨ty, v, hi, hp⟩
    | assignmentCode v l op r => simp [isIntPrint] at hp
    | jumpCode d => simp [isIntPrint] at hp
    | labelCode l => simp [isIntPrint] at hp
    | compareCodeIR l o r j => simp [isIntPrint] at hp
  · rintro ⟨ty, v, hm, hne⟩
    exact ⟨.printCodeIR ty v, hm, by simp [isIntPrint, hne]⟩

theorem any_isStrPrint_iff (code : List IRInstr) :
    code.any isStrPrint = true ↔ ∃ v, IRInstr.printCodeIR "string" v ∈ code := by
  rw [List.any_eq_true]
  constructor
  · rintro ⟨i, hi, hp⟩
    cases i with
    | printCodeIR ty v =>
      simp only [isStrPrint, decide_eq_true_eq] at hp
      subst hp
      exact ⟨v, hi⟩
    | assignmentCode v l op r => simp [isStrPrint] at hp
    | jumpCode d => simp [isStrPrint] at hp
    | labelCode l => simp [isStrPrint] at hp
    | compareCodeIR l o r j => simp [isStrPrint] at hp
  · rintro ⟨v, hm⟩
    exact ⟨.printCodeIR "string" v, hm, by simp [isStrPrint]⟩

theorem data_head_append (p r : String) (c : Char) (h : p.data.head? = some c) :
    (p ++ r).data.head? = some c := by
  rw [String.data_append]
  cases hp : p.data with
  | nil => rw [hp] at h; simp at h
  | cons x xs =>
    rw [hp] at h
    simp only [List.head?_cons, Option.some.injEq] at h
    simp [h]

theorem data_last_append (p r : String) (c : Char) (init : List Char)
    (h : r.data = init ++ [c]) : (p ++ r).data.getLast? = some c := by
  rw [String.data_append, h, ← List.append_assoc]
  exact List.getLast?_concat _

theorem data_get1_append (p r : String) (h2 : 2 ≤ p.data.length) :
    (p ++ r).data.getD 1 (Char.ofNat 0) = p.data.getD 1 (Char.ofNat 0) := by
  rw [String.data_append]
  exact List.getD_append _ _ _ _ (by omega)

theorem line_tab_shape (p q : String) (hp : p.data.head? = some (Char.ofNat 9))
    (h2 : 2 ≤ p.data.length) (hd : p.data.getD 1 (Char.ofNat 0) ≠ 'd') :
    (p ++ q).data.head? = some (Char.ofNat 9) ∧
      (p ++ q).data.getD 1 (Char.ofNat 0) ≠ 'd' :=
  ⟨data_head_append p q _ hp, by rw [data_get1_append p q h2]; exact hd⟩

/-- Every line emitted for one IR instruction either starts with a tab
not followed by `d`, or ends with a colon (label definitions). -/
theorem gen_instr_line_shape (consts : List (String × String)) (i : IRInstr) :
    ∀ line ∈ gen_instr consts i,
      (line.data.head? = some (Char.ofNat 9) ∧
        line.data.getD 1 (Char.ofNat 0) ≠ 'd') ∨
      line.data.getLast? = some (Char.ofNat 58) := by
  cases i with
  | assignmentCode v l op r =>
    intro line hline
    simp only [gen_instr, gen_assignment] at hline
    split at hline
    · rw [List.mem_append] at hline
      rcases hline with hline | hline
      · split at hline
        · rcases List.mem_singleton.mp hline with rfl
          rw [String.append_assoc]
          exact Or.inl (line_tab_shape _ _ (by decide) (by decide) (by decide))
        · rcases List.mem_singleton.mp hline with rfl
          exact Or.inl (line_tab_shape _ _ (by decide) (by decide) (by decide))
      · rcases List.mem_singleton.mp hline with rfl
        rw [String.append_assoc]
        exact Or.inl (line_tab_shape _ _ (by decide) (by decide) (by decide))
    · simp only [List.mem_append] at hline
      rcases hline with (hline | hline) | hline
      · rcases List.mem_singleton.mp hline with rfl
        exact Or.inl (line_tab_shape _ _ (by decide) (by decide) (by decide))
      · split at hline
        · simp only [List.mem_cons, List.not_mem_nil, or_false] at hline
          rcases hline with rfl | rfl | rfl
          · exact Or.inl ⟨by decide, by decide⟩
          · exact Or.inl (line_tab_shape _ _ (by decide) (by decide) (by decide))
          · exact Or.inl ⟨by decide, by decide⟩
        · simp only [List.mem_cons, List.not_mem_nil, or_false] at hline
          rcases hline with rfl | rfl
          · exact Or.inl (line_tab_shape _ _ (by decide) (by decide) (by decide))
          · unfold op_to_asm
            split_ifs <;> exact Or.inl ⟨by decide, by decide⟩
      · rcases List.mem_singleton.mp hline with rfl
        rw [String.append_assoc]
        exact Or.inl (line_tab_shape _ _ (by decide) (by decide) (by decide))
  | jumpCode d =>
    intro line hline
    rcases List.mem_singleton.mp hline with rfl
    exact Or.inl (line_tab_shape _ _ (by decide) (by decide) (by decide))
  | labelCode l =>
    intro line hline
    rcases List.mem_singleton.mp hline with rfl
    exact Or.inr (data_last_append l ":" (Char.ofNat 58) [] rfl)
  | compareCodeIR l o r j =>
    intro line hline
    simp only [gen_instr, List.mem_cons, List.not_mem_nil, or_false] at hline
    rcases hline with rfl | rfl | rfl
    · exact Or.inl (line_tab_shape _ _ (by decide) (by decide) (by decide))
    · exact Or.inl (line_tab_shape _ _ (by decide) (by decide) (by decide))
    · unfold cmp_to_jmp
      split_ifs <;> exact Or.inl (line_tab_shape _ _ (by decide) (by decide) (by decide))
  | printCodeIR ty v =>
    intro line hline
    simp only [gen_instr] at hline
    split at hline
    · simp only [List.mem_cons, List.not_mem_nil, or_false] at hline
      rcases hline with rfl | rfl
      · exact Or.inl (line_tab_shape _ _ (by decide) (by decide) (by decide))
      · exact Or.inl ⟨by decide, by decide⟩
    · rw [List.mem_append] at hline
      rcases hline with hline | hline
      · split at hline
        · rcases List.mem_singleton.mp hline with rfl
          exact Or.inl (line_tab_shape _ _ (by decide) (by decide) (by decide))
        · rcases List.mem_singleton.mp hline with rfl
          rw [String.append_assoc]
          exact Or.inl (line_tab_shape _ _ (by decide) (by decide) (by decide))
      · rcases List.mem_singleton.mp hline with rfl
        exact Or.inl ⟨by decide, by decide⟩

/-- Every line of the `.bss` section is the section header, the
`digitSpace` reservation block, or an identifier slot line ending in
`8`. -/
theorem gen_variables_line_shape (nn : Bool) (ids : List (String × String)) :
    ∀ line ∈ gen_variables nn ids,
      line = "section .bss" ∨ line = digitReserveText ∨
        line.data.getLast? = some '8' := by
  intro line hline
  simp only [gen_variables, List.mem_append, List.mem_cons, List.not_mem_nil,
    or_false, List.mem_singleton] at hline
  rcases hline with (rfl | hline) | hline
  · exact Or.inl rfl
  · split at hline
    · rcases List.mem_singleton.mp hline with rfl
      exact Or.inr (Or.inl rfl)
    · simp at hline
  · obtain ⟨kv, hkv, rfl⟩ := List.mem_map.mp hline
    exact Or.inr (Or.inr (data_last_append _ " resb 8" '8'
      [' ', 'r', 'e', 's', 'b', ' '] rfl))

/-- Every line of the `.data` section is the section header, the text
header, or a `db` line ending in `0`. -/
theorem gen_start_line_shape (consts : List (String × String)) :
    ∀ line ∈ gen_start consts,
      line = "section .data" ∨ line = textHeader ∨
        line.data.getLast? = some '0' := by
  intro line hline
  simp only [gen_start, List.mem_append, List.mem_cons, List.not_mem_nil,
    or_false, List.mem_singleton] at hline
  rcases hline with (rfl | hline) | rfl
  · exact Or.inl rfl
  · obtain ⟨kv, hkv, rfl⟩ := List.mem_map.mp hline
    exact Or.inr (Or.inr (data_last_append _ "10, 0" '0' ['1', '0', ',', ' '] rfl))
  · exact Or.inr (Or.inl rfl)

/-- Claim C8: `writeAsm` emits the `print_num` helper and reserves
`digitSpace`/`digitSpacePos` in `.bss` if and only if the IR stream
contains at least one integer print (kind other than `"string"`); it
emits the `print_string` helper if and only if the stream contains at
least one string print; and when both are needed, the output ends with
the exit epilogue followed by `print_num` and then `print_string`. -/
theorem c8_helper_emission (code : List IRInstr) (ids consts : List (String × String)) :
    (printNumText ∈ writeAsm code ids consts ↔
      ∃ ty v, IRInstr.printCodeIR ty v ∈ code ∧ ty ≠ "string") ∧
    (digitReserveText ∈ writeAsm code ids consts ↔
      ∃ ty v, IRInstr.printCodeIR ty v ∈ code ∧ ty ≠ "string") ∧
    (printStringText ∈ writeAsm code ids consts ↔
      ∃ v, IRInstr.printCodeIR "string" v ∈ code) ∧
    ((∃ ty v, IRInstr.printCodeIR ty v ∈ code ∧ ty ≠ "string") →
      (∃ v, IRInstr.printCodeIR "string" v ∈ code) →
      ∃ pre, writeAsm code ids consts
        = pre ++ [endText, printNumText, printStringText]) := by
  have hnotcode : ∀ X : String,
      (X.data.head? ≠ some (Char.ofNat 9) ∨ X.data.getD 1 (Char.ofNat 0) = 'd') →
      X.data.getLast? ≠ some (Char.ofNat 58) → X ∉ gen_code consts code := by
    intro X hX1 hX2 hm
    rw [gen_code] at hm
    obtain ⟨lines, hlines, hmem⟩ := List.mem_flatten.mp hm
    obtain ⟨i, hi, rfl⟩ := List.mem_map.mp hlines
    rcases gen_instr_line_shape consts i X hmem with ⟨h1, h2⟩ | h1
    · rcases hX1 with hX1 | hX1
      · exact hX1 h1
      · exact h2 hX1
    · exact hX2 h1
  have hpn_code : printNumText ∉ gen_code consts code :=
    hnotcode _ (Or.inl (by decide)) (by decide)
  have hps_code : printStringText ∉ gen_code consts code :=
    hnotcode _ (Or.inl (by decide)) (by decide)
  have hdr_code : digitReserveText ∉ gen_code consts code :=
    hnotcode _ (Or.inr (by decide)) (by decide)
  have hnotvars : ∀ X : String, X ≠ "section .bss" → X ≠ digitReserveText →
      X.data.getLast? ≠ some '8' → ∀ nn : Bool, X ∉ gen_variables nn ids := by
    intro X h1 h2 h3 nn hm
    rcases gen_variables_line_shape nn ids X hm with h | h | h
    exacts [h1 h, h2 h, h3 h]
  have hpn_vars := hnotvars printNumText (by decide) (by decide) (by decide)
  have hps_vars := hnotvars printStringText (by decide) (by decide) (by decide)
  have hnotstart : ∀ X : String, X ≠ "section .data" → X ≠ textHeader →
      X.data.getLast? ≠ some '0' → X ∉ gen_start consts := by
    intro X h1 h2 h3 hm
    rcases gen_start_line_shape consts X hm with h | h | h
    exacts [h1 h, h2 h, h3 h]
  have hpn_start := hnotstart printNumText (by decide) (by decide) (by decide)
  have hps_start := hnotstart printStringText (by decide) (by decide) (by decide)
  have hdr_start := hnotstart digitReserveText (by decide) (by decide) (by decide)
  have hdr_vars : ∀ nn : Bool, digitReserveText ∈ gen_variables nn ids → nn = true := by
    intro nn hm
    cases nn
    · exfalso
      simp only [gen_variables, if_false, Bool.false_eq_true, List.nil_append,
        List.append_nil, List.mem_append, List.mem_cons, List.not_mem_nil,
        or_false, List.mem_singleton] at hm
      rcases hm with hm | hm
      · exact absurd hm (by decide)
      · obtain ⟨kv, _, hkv⟩ := List.mem_map.mp hm
        have hlast := data_last_append ("\t" ++ kv.1) " resb 8" '8'
          [' ', 'r', 'e', 's', 'b', ' '] rfl
        rw [hkv] at hlast
        exact absurd hlast (by decide)
    · rfl
  have hw : writeAsm code ids consts
      = gen_variables (code.any isIntPrint) ids ++ gen_start consts
        ++ gen_code consts code ++ [endText]
        ++ (if code.any isIntPrint then [printNumText] else [])
        ++ (if code.any isStrPrint then [printStringText] else []) := by
    rw [writeAsm, computeNeeds_spec]
  refine ⟨?_, ?_, ?_, ?_⟩
  · rw [hw, ← any_isIntPrint_iff]
    constructor
    · intro hm
      simp only [List.mem_append] at hm
      rcases hm with ((((hm | hm) | hm) | hm) | hm) | hm
      · exact absurd hm (hpn_vars _)
      · exact absurd hm hpn_start
      · exact absurd hm hpn_code
      · exact absurd (List.mem_singleton.mp hm) (by decide)
      · by_cases hany : code.any isIntPrint = true
        · exact hany
        · rw [if_neg hany] at hm
          simp at hm
      · split at hm
        · exact absurd (List.mem_singleton.mp hm) (by decide)
        · simp at hm
    · intro hany
      rw [if_pos hany]
      simp
  · rw [hw, ← any_isIntPrint_iff]
    constructor
    · intro hm
      simp only [List.mem_append] at hm
      rcases hm with ((((hm | hm) | hm) | hm) | hm) | hm
      · exact hdr_vars _ hm
      · exact absurd hm hdr_start
      · exact absurd hm hdr_code
      · exact absurd (List.mem_singleton.mp hm) (by decide)
      · split at hm
        · exact absurd (List.mem_singleton.mp hm) (by decide)
        · simp at hm
      · split at hm
        · exact absurd (List.mem_singleton.mp hm) (by decide)
        · simp at hm
    · intro hany
      rw [hany]
      simp [gen_variables]
  · rw [hw, ← any_isStrPrint_iff]
    constructor
    · intro hm
      simp only [List.mem_append] at hm
      rcases hm with ((((hm | hm) | hm) | hm) | hm) | hm
      · exact absurd hm (hps_vars _)
      · exact absurd hm hps_start
      · exact absurd hm hps_code
      · exact absurd (List.mem_singleton.mp hm) (by decide)
      · split at hm
        · exact absurd (List.mem_singleton.mp hm) (by decide)
        · simp at hm
      · by_cases hany : code.any isStrPrint = true
        · exact hany
        · rw [if_neg hany] at hm
          simp at hm
    · intro hany
      rw [if_pos hany]
      simp
  · intro hint hstr
    rw [hw, if_pos ((any_isIntPrint_iff code).mpr hint),
      if_pos ((any_isStrPrint_iff code).mpr hstr)]
    exact ⟨gen_variables (code.any isIntPrint) ids ++ gen_start consts
      ++ gen_code consts code, by simp [List.append_assoc]⟩

theorem c8_witness :
    (printNumText ∈ writeAsm [IRInstr.printCodeIR "int" "x",
        IRInstr.printCodeIR "string" "S1"] [("x", "int")] [("S1", "hi")] ↔
      ∃ ty v, IRInstr.printCodeIR ty v
          ∈ [IRInstr.printCodeIR "int" "x", IRInstr.printCodeIR "string" "S1"]
        ∧ ty ≠ "string") ∧
    (∃ ty v, IRInstr.printCodeIR ty v
        ∈ [IRInstr.printCodeIR "int" "x", IRInstr.printCodeIR "string" "S1"]
      ∧ ty ≠ "string") ∧
    (∃ v, IRInstr.printCodeIR "string" v
      ∈ [IRInstr.printCodeIR "int" "x", IRInstr.printCodeIR "string" "S1"]) ∧
    ∃ pre, writeAsm [IRInstr.printCodeIR "int" "x", IRInstr.printCodeIR "string" "S1"]
        [("x", "int")] [("S1", "hi")]
      = pre ++ [endText, printNumText, printStringText] :=
  ⟨(c8_helper_emission _ _ _).1,
    ⟨"int", "x", by decide, by decide⟩,
    ⟨"S1", by decide⟩,
    (c8_helper_emission [IRInstr.printCodeIR "int" "x", IRInstr.printCodeIR "string" "S1"]
        [("x", "int")] [("S1", "hi")]).2.2.2
      ⟨"int", "x", by decide, by decide⟩ ⟨"S1", by decide⟩⟩

end PseudoCompiler

